import Mathlib

/-!
Verification of the iTrading dashboard client core: the list
filtering/sorting/pagination hook pattern used by the Brokers and Posts
pages, and the form validation hook (useFormValidation). Page-level
handlers (page-input commit, delete adjustment, filter change) are
embedded from the page sources; the filtering hook itself and the
validation utility module are not part of the available sources, so those
definitions are modelled from the specification and marked as such.
-/

/-! ## Pagination (filtering hook output) -/

/-- Modelled from the spec: the filtering hook (useBrokersFiltering /
usePostsFiltering, not among the available sources) reports
total page count = ceil(filteredCount / pageSize), minimum 1. -/
def totalPagesSpec (filteredCount itemsPerPage : Nat) : Nat :=
  max 1 ((filteredCount + itemsPerPage - 1) / itemsPerPage)

/-- Modelled from the spec: the current page slice produced by the
filtering hook, for a 1-based page number. -/
def paginateSpec {α : Type} (l : List α) (page itemsPerPage : Nat) : List α :=
  (l.drop ((page - 1) * itemsPerPage)).take itemsPerPage

lemma totalPagesSpec_pos (n P : Nat) : 1 ≤ totalPagesSpec n P := by
  simp [totalPagesSpec]

lemma paginateSpec_length {α : Type} (l : List α) (page P : Nat) :
    (paginateSpec l page P).length = min P (l.length - (page - 1) * P) := by
  simp [paginateSpec]

lemma ceil_div_eq_natCeil (n P : Nat) (hP : 1 ≤ P) :
    (n + P - 1) / P = Nat.ceil ((n : ℚ) / (P : ℚ)) := by
  have hP0 : (0 : ℚ) < (P : ℚ) := by exact_mod_cast hP
  apply le_antisymm
  · rw [Nat.div_le_iff_le_mul_add_pred hP]
    have h1 : (n : ℚ) / (P : ℚ) ≤ (Nat.ceil ((n : ℚ) / (P : ℚ)) : ℚ) := Nat.le_ceil _
    rw [div_le_iff₀ hP0] at h1
    have h2 : n ≤ Nat.ceil ((n : ℚ) / (P : ℚ)) * P := by exact_mod_cast h1
    have h3 : P * Nat.ceil ((n : ℚ) / (P : ℚ)) = Nat.ceil ((n : ℚ) / (P : ℚ)) * P :=
      Nat.mul_comm _ _
    omega
  · rw [Nat.ceil_le, div_le_iff₀ hP0]
    have hkey : n ≤ (n + P - 1) / P * P := by
      have hd := Nat.div_add_mod (n + P - 1) P
      have hm : (n + P - 1) % P < P := Nat.mod_lt _ (by omega)
      have hc : (n + P - 1) / P * P = P * ((n + P - 1) / P) := Nat.mul_comm _ _
      omega
    exact_mod_cast hkey

/-! ## Filter state and page navigation -/

/-- Sort direction of the filtering hook. -/
inductive SortDirection : Type where
  | asc : SortDirection
  | desc : SortDirection
deriving DecidableEq

/-- The named controls held by the filtering hook (filterState as consumed
by the Brokers and Posts pages). -/
structure FilterState : Type where
  searchTerm : String
  filterStatus : String
  activeTab : String
  sortColumn : String
  sortDirection : SortDirection
  currentPage : Nat
  itemsPerPage : Nat
  pageInputValue : String
deriving DecidableEq

/-- Modelled from the spec: handlePageChange of the filtering hook (not
among the available sources) clamps the requested page to [1, totalPages]
and syncs the page input buffer to the resulting page. -/
def handlePageChange (totalPages : Nat) (st : FilterState) (page : Nat) : FilterState :=
  let clamped := min (max page 1) totalPages
  { st with currentPage := clamped, pageInputValue := toString clamped }

/-- Modelled from the spec: setSearchTerm of the filtering hook (not among
the available sources) stores the term and resets the current page to 1. -/
def setSearchTerm (st : FilterState) (term : String) : FilterState :=
  { st with searchTerm := term, currentPage := 1 }

/-- Modelled from the spec: handleTabChange of the filtering hook (not
among the available sources) stores the tab and resets the current page to 1. -/
def handleTabChange (st : FilterState) (tab : String) : FilterState :=
  { st with activeTab := tab, currentPage := 1 }

/-- Modelled from the spec: setFilterStatus of the filtering hook (not
among the available sources) stores the filter value. -/
def setFilterStatus (st : FilterState) (v : String) : FilterState :=
  { st with filterStatus := v }

/-- FilterDropdown onChange handler of Posts.tsx: setFilterStatus followed
by handlePageChange(1). -/
def onFilterStatusChange (totalPages : Nat) (st : FilterState) (v : String) : FilterState :=
  handlePageChange totalPages (setFilterStatus st v) 1

/-- Modelled from the spec: handleSort of the filtering hook (not among
the available sources) toggles the direction when the same column is
clicked again and defaults to ascending on a new column. -/
def handleSort (st : FilterState) (c : String) : FilterState :=
  if st.sortColumn = c then
    { st with
      sortDirection := match st.sortDirection with
        | SortDirection.asc => SortDirection.desc
        | SortDirection.desc => SortDirection.asc }
  else
    { st with sortColumn := c, sortDirection := SortDirection.asc }

/-! ## JavaScript parseInt (page input parsing) -/

/-- Digit-run parsing used by parseInt: longest leading run of decimal
digits, none when the run is empty. -/
def parseDigits (cs : List Char) : Option Nat :=
  let ds := cs.takeWhile Char.isDigit
  if ds.isEmpty then none
  else some (ds.foldl (fun acc c => acc * 10 + (c.toNat - 48)) 0)

/-- JavaScript parseInt(s) at radix 10: skip leading whitespace, optional
sign, longest digit run; none models NaN. -/
def jsParseInt (s : String) : Option Int :=
  let cs := s.data.dropWhile (fun c => c = ' ' || c = '\t' || c = '\n' || c = '\r')
  match cs with
  | '-' :: rest => (parseDigits rest).map (fun n => -(n : Int))
  | '+' :: rest => (parseDigits rest).map (fun n => (n : Int))
  | _ => (parseDigits cs).map (fun n => (n : Int))

/-- Page input commit handler of Brokers.tsx and Posts.tsx (onBlur and
Enter onKeyDown): parse the buffer, navigate when the number is within
[1, totalPages], otherwise revert the buffer to the current page. -/
def commitPageInput (totalPages : Nat) (st : FilterState) (text : String) : FilterState :=
  match jsParseInt text with
  | some page =>
      if 1 ≤ page ∧ page ≤ (totalPages : Int) then
        handlePageChange totalPages st page.toNat
      else
        { st with pageInputValue := toString st.currentPage }
  | none => { st with pageInputValue := toString st.currentPage }

/-! ## Case-insensitive search filtering -/

/-- Lowercased character sequence of a string (JS toLowerCase). -/
def lowerChars (s : String) : List Char :=
  s.data.map Char.toLower

/-- Substring containment on character lists: the needle occurs
contiguously inside the haystack. -/
def containsSub (hay needle : List Char) : Bool :=
  match hay with
  | [] => needle.isEmpty
  | _ :: t => needle.isPrefixOf hay || containsSub t needle

/-- Case-insensitive substring test (JS a.toLowerCase().includes(b.toLowerCase())). -/
def containsCI (hay needle : String) : Bool :=
  containsSub (lowerChars hay) (lowerChars needle)

/-- Modelled from the spec: the search predicate of the filtering hook
(not among the available sources) keeps a record when at least one of its
searched text fields contains the term as a case-insensitive substring. -/
def matchesSearch {R : Type} (fields : R → List String) (term : String) (r : R) : Bool :=
  (fields r).any (fun s => containsCI s term)

/-- Modelled from the spec: the search filter of the filtering hook (not
among the available sources) applied to the full record list. -/
def filterBySearch {R : Type} (fields : R → List String) (l : List R) (term : String) :
    List R :=
  l.filter (matchesSearch fields term)

lemma containsSub_iff_infix (hay needle : List Char) :
    containsSub hay needle = true ↔ needle <:+: hay := by
  induction hay with
  | nil =>
      simp only [containsSub, List.isEmpty_iff, List.infix_nil]
  | cons a t ih =>
      simp only [containsSub, Bool.or_eq_true, List.isPrefixOf_iff_prefix, ih,
        List.infix_cons_iff]

/-! ## JavaScript values and object maps -/

/-- The JavaScript values flowing through the form hook. -/
inductive JSValue : Type where
  | undefined : JSValue
  | null : JSValue
  | nan : JSValue
  | num : Int → JSValue
  | str : String → JSValue
  | bool : Bool → JSValue
deriving DecidableEq

/-- JavaScript truthiness of a value. -/
def jsTruthy : JSValue → Bool
  | JSValue.undefined => false
  | JSValue.null => false
  | JSValue.nan => false
  | JSValue.num n => !(n == 0)
  | JSValue.str s => !(s == "")
  | JSValue.bool b => b

/-- JavaScript numeric comparison value >= k (false unless value is a number). -/
def jsGE (v : JSValue) (k : Int) : Bool :=
  match v with
  | JSValue.num n => decide (k ≤ n)
  | _ => false

/-- JavaScript numeric comparison value <= k (false unless value is a number). -/
def jsLE (v : JSValue) (k : Int) : Bool :=
  match v with
  | JSValue.num n => decide (n ≤ k)
  | _ => false

/-- Object property read o[k] as an association-list lookup. -/
def objGet {β : Type} (o : List (String × β)) (k : String) : Option β :=
  match o with
  | [] => none
  | p :: t => if p.1 = k then some p.2 else objGet t k

/-- Object write {...o, [k]: v}: replace in place when the key exists,
append otherwise (JS key-insertion order). -/
def objSet {β : Type} (o : List (String × β)) (k : String) (v : β) : List (String × β) :=
  if o.any (fun p => decide (p.1 = k)) then
    o.map (fun p => if p.1 = k then (p.1, v) else p)
  else o ++ [(k, v)]

/-- Object key removal (JS delete o[k]). -/
def objDelete {β : Type} (o : List (String × β)) (k : String) : List (String × β) :=
  o.filter (fun p => !decide (p.1 = k))

/-- Object property read o[k] on a value map: missing keys read as undefined. -/
def jsGet (o : List (String × JSValue)) (k : String) : JSValue :=
  (objGet o k).getD JSValue.undefined

lemma objGet_eq_none_of_not_any {β : Type} (o : List (String × β)) (k : String)
    (h : o.any (fun p => decide (p.1 = k)) = false) : objGet o k = none := by
  induction o with
  | nil => rfl
  | cons a t ih =>
      simp only [List.any_cons, Bool.or_eq_false_iff, decide_eq_false_iff_not] at h
      simp [objGet, h.1, ih (by simpa using h.2)]

lemma objGet_append_right {β : Type} (o₁ o₂ : List (String × β)) (k : String)
    (h : objGet o₁ k = none) : objGet (o₁ ++ o₂) k = objGet o₂ k := by
  induction o₁ with
  | nil => rfl
  | cons a t ih =>
      by_cases ha : a.1 = k
      · simp [objGet, ha] at h
      · simp only [objGet, ha, if_false] at h
        simp [List.cons_append, objGet, ha, ih h]

lemma objGet_mapReplace {β : Type} (o : List (String × β)) (k : String) (v : β)
    (h : o.any (fun p => decide (p.1 = k)) = true) :
    objGet (o.map (fun p => if p.1 = k then (p.1, v) else p)) k = some v := by
  induction o with
  | nil => simp at h
  | cons a t ih =>
      by_cases ha : a.1 = k
      · simp [objGet, ha]
      · simp only [List.any_cons, Bool.or_eq_true, decide_eq_true_eq] at h
        rcases h with h | h
        · exact absurd h ha
        · simp [objGet, ha, ih (by simpa using h)]

lemma objGet_objSet_self {β : Type} (o : List (String × β)) (k : String) (v : β) :
    objGet (objSet o k v) k = some v := by
  unfold objSet
  split
  · exact objGet_mapReplace o k v (by assumption)
  · rename_i hany
    rw [objGet_append_right]
    · simp [objGet]
    · refine objGet_eq_none_of_not_any o k ?_
      simp only [Bool.not_eq_true] at hany
      exact hany

lemma objGet_mapReplace_ne {β : Type} (o : List (String × β)) (k k' : String) (v : β)
    (h : k' ≠ k) :
    objGet (o.map (fun p => if p.1 = k then (p.1, v) else p)) k' = objGet o k' := by
  induction o with
  | nil => rfl
  | cons a t ih =>
      by_cases ha : a.1 = k
      · have hkk' : ¬(k = k') := fun hk => h hk.symm
        simp [objGet, ha, hkk', ih]
      · by_cases hk'a : a.1 = k'
        · simp [objGet, ha, hk'a, h]
        · simp [objGet, ha, hk'a, ih]

lemma objGet_append_ne {β : Type} (o : List (String × β)) (k k' : String) (v : β)
    (h : k' ≠ k) : objGet (o ++ [(k, v)]) k' = objGet o k' := by
  induction o with
  | nil =>
      have hkk' : ¬(k = k') := fun hk => h hk.symm
      simp [objGet, hkk']
  | cons a t ih =>
      by_cases hk'a : a.1 = k'
      · simp [List.cons_append, objGet, hk'a]
      · simp [List.cons_append, objGet, hk'a, ih]

lemma objGet_objSet_ne {β : Type} (o : List (String × β)) (k k' : String) (v : β)
    (h : k' ≠ k) : objGet (objSet o k v) k' = objGet o k' := by
  unfold objSet
  split
  · exact objGet_mapReplace_ne o k k' v h
  · exact objGet_append_ne o k k' v h

lemma objGet_objDelete_self {β : Type} (o : List (String × β)) (k : String) :
    objGet (objDelete o k) k = none := by
  induction o with
  | nil => rfl
  | cons a t ih =>
      by_cases ha : a.1 = k
      · simpa [objDelete, List.filter_cons, ha] using ih
      · simpa [objDelete, List.filter_cons, ha, objGet] using ih

lemma objGet_objDelete_ne {β : Type} (o : List (String × β)) (k k' : String)
    (h : k' ≠ k) : objGet (objDelete o k) k' = objGet o k' := by
  induction o with
  | nil => rfl
  | cons a t ih =>
      by_cases ha : a.1 = k
      · have hkk' : ¬(k = k') := fun hk => h hk.symm
        simpa [objDelete, List.filter_cons, ha, objGet, hkk'] using ih
      · by_cases hk'a : a.1 = k'
        · simp [objDelete, List.filter_cons, ha, objGet, hk'a, h]
        · simpa [objDelete, List.filter_cons, ha, objGet, hk'a] using ih

/-! ## Form validation hook (useFormValidation.ts) -/

/-- Declarative validation rule from the spec: required, min/max length,
numeric min/max, custom predicate, message. -/
structure Rule : Type where
  required : Bool := false
  minLength : Option Nat := none
  maxLength : Option Nat := none
  min : Option Int := none
  max : Option Int := none
  custom : Option (JSValue → Bool) := none
  message : Option String := none

/-- Result shape of the validation utility (FieldValidationResult). -/
structure FieldValidationResult : Type where
  isValid : Bool
  error : Option String := none
deriving DecidableEq

/-- State of useFormValidation: data, per-field errors, touched map. -/
structure FormState : Type where
  data : List (String × JSValue)
  errors : List (String × String)
  touched : List (String × Bool)
deriving DecidableEq

/-- Option flags of useFormValidation with their source defaults. -/
structure FormConfig : Type where
  validateOnBlur : Bool := true
  validateOnChange : Bool := false
  validateOnSubmit : Bool := true
deriving DecidableEq

/-- isValid of the hook: the error map is empty. -/
def isValidState (st : FormState) : Bool :=
  st.errors.isEmpty

/-- A value an empty field holds: undefined, null, or the empty string. -/
def isEmptyValue : JSValue → Bool
  | JSValue.undefined => true
  | JSValue.null => true
  | JSValue.str s => s == ""
  | _ => false

/-- Modelled from the spec: validateField of utils/validation (not among
the available sources). A required rule rejects missing or empty values;
otherwise a missing optional value passes; string values are checked
against min/max length, numeric values against min/max, and finally the
custom predicate; failures carry the rule message. -/
def validateFieldUtil (v : JSValue) (r : Rule) (field : String) : FieldValidationResult :=
  let msg := r.message.getD (field ++ " is invalid")
  if r.required && isEmptyValue v then
    { isValid := false, error := some msg }
  else if !r.required && isEmptyValue v then
    { isValid := true, error := none }
  else
    let lenBad :=
      match v with
      | JSValue.str s =>
          (match r.minLength with | some m => decide (s.length < m) | none => false)
          || (match r.maxLength with | some m => decide (m < s.length) | none => false)
      | _ => false
    let numBad :=
      match v with
      | JSValue.num n =>
          (match r.min with | some m => decide (n < m) | none => false)
          || (match r.max with | some m => decide (m < n) | none => false)
      | _ => false
    let customBad :=
      match r.custom with
      | some p => !p v
      | none => false
    if lenBad || numBad || customBad then { isValid := false, error := some msg }
    else { isValid := true, error := none }

/-- Modelled from the spec: validateForm of utils/validation (not among
the available sources) validates the whole schema against the data and
collects the failing fields into an error map. -/
def validateFormUtil (schema : List (String × Rule)) (data : List (String × JSValue)) :
    Bool × List (String × String) :=
  let errs := schema.filterMap (fun p =>
    let result := validateFieldUtil (jsGet data p.1) p.2 p.1
    match result.error with
    | some e => if result.isValid then none else some (p.1, e)
    | none => none)
  (errs.isEmpty, errs)

/-- updateField of useFormValidation.ts: store the value, clear any
existing error for the field, then re-validate the field only when
validate-on-change is enabled and the schema has a rule for it. The
validation utility is a parameter (its source is not available). -/
def updateField (cfg : FormConfig) (schema : List (String × Rule))
    (vf : JSValue → Rule → String → FieldValidationResult)
    (st : FormState) (f : String) (v : JSValue) : FormState :=
  let st1 : FormState :=
    { st with
      data := objSet st.data f v
      errors := if (objGet st.errors f).isSome then objDelete st.errors f else st.errors }
  if cfg.validateOnChange then
    match objGet schema f with
    | some rule =>
        let result := vf v rule f
        if !result.isValid && result.error.isSome then
          { st1 with errors := objSet st1.errors f (result.error.getD "") }
        else st1
    | none => st1
  else st1

/-- validateFieldFn of useFormValidation.ts: a field with no schema rule
is valid and the state is untouched; otherwise run the validation utility
on the current value and set or clear the error for the field. -/
def validateFieldFn (schema : List (String × Rule))
    (vf : JSValue → Rule → String → FieldValidationResult)
    (st : FormState) (f : String) : FieldValidationResult × FormState :=
  match objGet schema f with
  | none => ({ isValid := true, error := none }, st)
  | some rule =>
      let result := vf (jsGet st.data f) rule f
      if !result.isValid && result.error.isSome then
        (result, { st with errors := objSet st.errors f (result.error.getD "") })
      else
        (result, { st with errors := objDelete st.errors f })

/-- handleSubmit of useFormValidation.ts: when validate-on-submit is
enabled, validate the whole schema, store the error map, and on failure
mark every schema field touched and skip the onSubmit callback. The Bool
result records whether the onSubmit callback is invoked. -/
def handleSubmit (cfg : FormConfig) (schema : List (String × Rule)) (st : FormState) :
    FormState × Bool :=
  if cfg.validateOnSubmit then
    let res := validateFormUtil schema st.data
    if !res.1 then
      ({ st with errors := res.2, touched := schema.map (fun p => (p.1, true)) }, false)
    else
      ({ st with errors := res.2 }, true)
  else (st, true)

/-- The change-event fields read by handleChange. -/
structure ChangeEvent : Type where
  value : String
  targetType : String
  checked : Bool
deriving DecidableEq

/-- JS Number coercion as used on numeric inputs: a nonempty digit string
becomes that number, any other nonempty input is NaN. -/
def jsNumber (s : String) : JSValue :=
  if s.data ≠ [] ∧ s.data.all Char.isDigit then
    JSValue.num (s.data.foldl (fun acc c => acc * 10 + ((c.toNat : Int) - 48)) 0)
  else JSValue.nan

/-- handleChange of useFormValidation.ts: checkboxes store checked;
numeric inputs coerce the empty string to undefined and anything else
through Number; other inputs store the raw string. -/
def handleChange (cfg : FormConfig) (schema : List (String × Rule))
    (vf : JSValue → Rule → String → FieldValidationResult)
    (st : FormState) (f : String) (e : ChangeEvent) : FormState :=
  let fieldValue :=
    if e.targetType = "checkbox" then JSValue.bool e.checked
    else if e.targetType = "number" then
      (if e.value = "" then JSValue.undefined else jsNumber e.value)
    else JSValue.str e.value
  updateField cfg schema vf st f fieldValue

/-- JS parseInt wrapped as a JSValue (NaN when no digits parse). -/
def jsParseIntValue (s : String) : JSValue :=
  match jsParseInt s with
  | some n => JSValue.num n
  | none => JSValue.nan

/-- The validation options BrokerForm passes to useFormValidation. -/
def brokerFormConfig : FormConfig :=
  { validateOnBlur := true, validateOnChange := false, validateOnSubmit := true }

/-- BROKER_FORM_SCHEMA of BrokerForm.tsx. -/
def brokerFormSchema (currentYear : Int) : List (String × Rule) :=
  [("name",
    { required := true, minLength := some 2, maxLength := some 100,
      message := some "Broker name must be between 2 and 100 characters" }),
   ("established_in",
    { min := some 1800, max := some currentYear,
      custom := some (fun v => !jsTruthy v || (jsGE v 1800 && jsLE v currentYear)),
      message := some "Please enter a valid year between 1800 and current year" }),
   ("headquarter",
    { maxLength := some 100,
      message := some "Headquarter must be less than 100 characters" }),
   ("description",
    { minLength := some 10,
      message := some "Description must be at least 10 characters" })]

/-- handleEstablishedYearChange of BrokerForm.tsx: a truthy (nonempty)
input is parsed with parseInt, the empty string stores null. -/
def handleEstablishedYearChange (currentYear : Int) (st : FormState) (value : String) :
    FormState :=
  updateField brokerFormConfig (brokerFormSchema currentYear) validateFieldUtil st
    "established_in"
    (if value ≠ "" then jsParseIntValue value else JSValue.null)

/-! ## Claim theorems -/

/-- A concrete filter state used by witnesses. -/
def sampleFilterState : FilterState :=
  { searchTerm := "", filterStatus := "all", activeTab := "all", sortColumn := "name",
    sortDirection := SortDirection.asc, currentPage := 2, itemsPerPage := 10,
    pageInputValue := "2" }

/-- C1: for every record count and page size P >= 1 the total page count of
the filtering hook equals the ceiling of filteredCount / P and is at least 1
even when filteredCount is 0; for 25 records at page size 10 there are 3
pages and the page 3 slice holds exactly 5 records. -/
theorem spec_C1 (n P : Nat) (hP : 1 ≤ P) :
    totalPagesSpec n P = max 1 (Nat.ceil ((n : ℚ) / (P : ℚ)))
    ∧ 1 ≤ totalPagesSpec n P
    ∧ totalPagesSpec 0 P = 1
    ∧ totalPagesSpec 25 10 = 3
    ∧ (paginateSpec (List.range 25) 3 10).length = 5 := by
  refine ⟨?_, totalPagesSpec_pos n P, ?_, by decide, ?_⟩
  · unfold totalPagesSpec
    rw [ceil_div_eq_natCeil n P hP]
  · have h0 : (P - 1) / P = 0 := Nat.div_eq_of_lt (by omega)
    simp [totalPagesSpec, h0]
  · simp [paginateSpec_length]

theorem spec_C1_witness :
    totalPagesSpec 25 10 = max 1 (Nat.ceil (((25 : Nat) : ℚ) / ((10 : Nat) : ℚ)))
    ∧ 1 ≤ totalPagesSpec 25 10
    ∧ totalPagesSpec 0 10 = 1
    ∧ totalPagesSpec 25 10 = 3
    ∧ (paginateSpec (List.range 25) 3 10).length = 5 :=
  spec_C1 25 10 (by decide)

/-- C2: committing the page input (onBlur / Enter onKeyDown of Brokers.tsx
and Posts.tsx) navigates to the parsed page when it lies in
[1, totalPages]; otherwise, including when parsing yields NaN, the state is
unchanged except that the input buffer reverts to the current page. -/
theorem spec_C2 (totalPages : Nat) (st : FilterState) (text : String) :
    (∀ p : Int, jsParseInt text = some p →
      ((1 ≤ p ∧ p ≤ (totalPages : Int)) →
        (commitPageInput totalPages st text).currentPage = p.toNat
        ∧ (commitPageInput totalPages st text).pageInputValue = toString p.toNat)
      ∧ (¬(1 ≤ p ∧ p ≤ (totalPages : Int)) →
        commitPageInput totalPages st text =
          { st with pageInputValue := toString st.currentPage }))
    ∧ (jsParseInt text = none →
      commitPageInput totalPages st text =
        { st with pageInputValue := toString st.currentPage }) := by
  constructor
  · intro p hp
    constructor
    · intro hrange
      simp only [commitPageInput, hp]
      rw [if_pos hrange]
      have h1 : min (max p.toNat 1) totalPages = p.toNat := by omega
      simp [handlePageChange, h1]
    · intro hrange
      simp only [commitPageInput, hp]
      rw [if_neg hrange]
  · intro hp
    simp only [commitPageInput, hp]

theorem spec_C2_witness :
    ((commitPageInput 3 sampleFilterState "3").currentPage = (3 : Int).toNat
      ∧ (commitPageInput 3 sampleFilterState "3").pageInputValue = toString (3 : Int).toNat)
    ∧ commitPageInput 3 sampleFilterState "7" =
        { sampleFilterState with pageInputValue := toString sampleFilterState.currentPage }
    ∧ commitPageInput 3 sampleFilterState "abc" =
        { sampleFilterState with pageInputValue := toString sampleFilterState.currentPage } := by
  refine ⟨?_, ?_, ?_⟩
  · exact ((spec_C2 3 sampleFilterState "3").1 3 (by decide)).1 (by decide)
  · exact ((spec_C2 3 sampleFilterState "7").1 7 (by decide)).2 (by decide)
  · exact (spec_C2 3 sampleFilterState "abc").2 (by decide)

/-- C3: changing the search term, the filter value (FilterDropdown onChange
of Posts.tsx), or the active tab resets the current page to 1. -/
theorem spec_C3 (totalPages : Nat) (hT : 1 ≤ totalPages) (st : FilterState)
    (term v tab : String) :
    (setSearchTerm st term).currentPage = 1
    ∧ (onFilterStatusChange totalPages st v).currentPage = 1
    ∧ (handleTabChange st tab).currentPage = 1 := by
  refine ⟨rfl, ?_, rfl⟩
  simp only [onFilterStatusChange, handlePageChange, setFilterStatus]
  omega

theorem spec_C3_witness :
    (setSearchTerm sampleFilterState "x").currentPage = 1
    ∧ (onFilterStatusChange 3 sampleFilterState "draft").currentPage = 1
    ∧ (handleTabChange sampleFilterState "news").currentPage = 1 :=
  spec_C3 3 (by decide) sampleFilterState "x" "draft" "news"

/-- C5: the sort handler keeps the column and flips the direction when
called with the currently selected column, and selects a new column with
ascending direction otherwise. -/
theorem spec_C5 (st : FilterState) (c c' : String) (hsame : st.sortColumn = c)
    (hdiff : st.sortColumn ≠ c') :
    (handleSort st c).sortColumn = c
    ∧ (st.sortDirection = SortDirection.asc →
        (handleSort st c).sortDirection = SortDirection.desc)
    ∧ (st.sortDirection = SortDirection.desc →
        (handleSort st c).sortDirection = SortDirection.asc)
    ∧ (handleSort st c').sortColumn = c'
    ∧ (handleSort st c').sortDirection = SortDirection.asc := by
  refine ⟨?_, ?_, ?_, ?_, ?_⟩
  · simp [handleSort, hsame]
  · intro h
    simp [handleSort, hsame, h]
  · intro h
    simp [handleSort, hsame, h]
  · simp [handleSort, hdiff]
  · simp [handleSort, hdiff]

theorem spec_C5_witness :
    (handleSort sampleFilterState "name").sortColumn = "name"
    ∧ (handleSort sampleFilterState "name").sortDirection = SortDirection.desc
    ∧ (handleSort sampleFilterState "established_in").sortColumn = "established_in"
    ∧ (handleSort sampleFilterState "established_in").sortDirection = SortDirection.asc := by
  obtain ⟨h1, h2, h3, h4, h5⟩ :=
    spec_C5 sampleFilterState "name" "established_in" rfl (by decide)
  exact ⟨h1, h2 rfl, h4, h5⟩

/-- C4: every record kept by the search filter comes from the input list
and has a searched field containing the term as a case-insensitive
substring. -/
theorem spec_C4 {R : Type} (fields : R → List String) (l : List R) (term : String)
    (r : R) (h : r ∈ filterBySearch fields l term) :
    r ∈ l ∧ ∃ s, s ∈ fields r ∧ lowerChars term <:+: lowerChars s := by
  unfold filterBySearch at h
  rw [List.mem_filter] at h
  refine ⟨h.1, ?_⟩
  have hm := h.2
  unfold matchesSearch at hm
  rw [List.any_eq_true] at hm
  obtain ⟨s, hs, hc⟩ := hm
  refine ⟨s, hs, ?_⟩
  rw [← containsSub_iff_infix]
  unfold containsCI at hc
  exact hc

theorem spec_C4_witness :
    "Alpha" ∈ ["Alpha", "Beta"]
    ∧ ∃ s, s ∈ (fun x : String => [x]) "Alpha" ∧ lowerChars "alp" <:+: lowerChars s :=
  spec_C4 (fun x : String => [x]) ["Alpha", "Beta"] "alp" "Alpha" (by decide)

/-- The schema and state of the submit scenario: one field name with
required and minLength 2, holding the empty string. -/
def nameSchema : List (String × Rule) :=
  [("name", { required := true, minLength := some 2 })]

def nameFormState : FormState :=
  { data := [("name", JSValue.str "")], errors := [], touched := [] }

/-- The defaults of useFormValidation (validate on blur and submit). -/
def defaultFormConfig : FormConfig := {}

/-- C9: validateFieldFn on a field without a schema rule reports valid and
leaves the whole state, in particular the error map, unchanged. -/
theorem spec_C9 (schema : List (String × Rule))
    (vf : JSValue → Rule → String → FieldValidationResult)
    (st : FormState) (f : String) (h : objGet schema f = none) :
    (validateFieldFn schema vf st f).1.isValid = true
    ∧ (validateFieldFn schema vf st f).2 = st := by
  simp [validateFieldFn, h]

theorem spec_C9_witness :
    (validateFieldFn nameSchema validateFieldUtil nameFormState "other").1.isValid = true
    ∧ (validateFieldFn nameSchema validateFieldUtil nameFormState "other").2
        = nameFormState :=
  spec_C9 nameSchema validateFieldUtil nameFormState "other" rfl

/-- C8 counterexample: the claim says the field established_in given the
empty string through its numeric change handler stores undefined; the
handler of BrokerForm.tsx stores null instead. -/
theorem spec_C8_counterexample :
    objGet (handleEstablishedYearChange 2026 nameFormState "").data "established_in"
        = some JSValue.null
    ∧ JSValue.null ≠ JSValue.undefined := by
  constructor
  · decide
  · decide

lemma updateField_data (cfg : FormConfig) (schema : List (String × Rule))
    (vf : JSValue → Rule → String → FieldValidationResult)
    (st : FormState) (f : String) (v : JSValue) :
    (updateField cfg schema vf st f v).data = objSet st.data f v := by
  simp only [updateField]
  split
  · split
    · split <;> rfl
    · rfl
  · rfl

/-- C8 (amended): fields bound to numeric inputs through the generic
handleChange of useFormValidation.ts store undefined for the empty string
(not 0 and not NaN); the field established_in is bound to a dedicated
handler in BrokerForm.tsx that stores null (not 0, not NaN, and not
undefined) for the empty string. -/
theorem spec_C8 (cfg : FormConfig) (schema : List (String × Rule))
    (vf : JSValue → Rule → String → FieldValidationResult)
    (st : FormState) (f : String) (e : ChangeEvent) (st' : FormState)
    (h1 : e.targetType = "number") (h2 : e.value = "") :
    objGet (handleChange cfg schema vf st f e).data f = some JSValue.undefined
    ∧ objGet (handleEstablishedYearChange 2026 st' "").data "established_in"
        = some JSValue.null := by
  constructor
  · simp only [handleChange, h1, h2, if_true]
    rw [updateField_data]
    exact objGet_objSet_self _ _ _
  · simp only [handleEstablishedYearChange]
    rw [if_neg (by decide : ¬(("" : String) ≠ ""))]
    rw [updateField_data]
    exact objGet_objSet_self _ _ _

theorem spec_C8_witness :
    objGet (handleChange defaultFormConfig nameSchema validateFieldUtil nameFormState
        "established_in" { value := "", targetType := "number", checked := false }).data
        "established_in" = some JSValue.undefined
    ∧ objGet (handleEstablishedYearChange 2026 nameFormState "").data "established_in"
        = some JSValue.null :=
  spec_C8 defaultFormConfig nameSchema validateFieldUtil nameFormState "established_in"
    { value := "", targetType := "number", checked := false } nameFormState rfl rfl

lemma errorsClear_self (st : FormState) (f : String) :
    objGet (if (objGet st.errors f).isSome then objDelete st.errors f else st.errors) f
      = none := by
  cases ho : objGet st.errors f with
  | none => simp [ho]
  | some e => simp [ho, objGet_objDelete_self]

lemma errorsClear_ne (st : FormState) (f g : String) (h : g ≠ f) :
    objGet (if (objGet st.errors f).isSome then objDelete st.errors f else st.errors) g
      = objGet st.errors g := by
  split
  · exact objGet_objDelete_ne _ _ _ h
  · rfl

/-- C6: updateField stores the value, immediately drops any error entry for
the field, and re-validates the field (possibly re-adding an error) exactly
when validate-on-change is enabled and the schema has a rule for the field;
entries for other fields are untouched. Holds for every behavior of the
validation utility vf. -/
theorem spec_C6 (cfg : FormConfig) (schema : List (String × Rule))
    (vf : JSValue → Rule → String → FieldValidationResult)
    (st : FormState) (f : String) (v : JSValue) :
    objGet (updateField cfg schema vf st f v).data f = some v
    ∧ (cfg.validateOnChange = false ∨ objGet schema f = none →
        objGet (updateField cfg schema vf st f v).errors f = none)
    ∧ (∀ rule, cfg.validateOnChange = true → objGet schema f = some rule →
        objGet (updateField cfg schema vf st f v).errors f =
          (if (vf v rule f).isValid = false ∧ ((vf v rule f).error).isSome = true
           then some (((vf v rule f).error).getD "") else none))
    ∧ (∀ g, g ≠ f →
        objGet (updateField cfg schema vf st f v).errors g = objGet st.errors g) := by
  refine ⟨?_, ?_, ?_, ?_⟩
  · rw [updateField_data]
    exact objGet_objSet_self _ _ _
  · intro h
    simp only [updateField]
    rcases h with h | h
    · simp only [h, Bool.false_eq_true, if_false]
      exact errorsClear_self st f
    · cases hvc : cfg.validateOnChange with
      | false => simpa [hvc] using errorsClear_self st f
      | true =>
          simp only [hvc, if_true, h]
          exact errorsClear_self st f
  · intro rule hvc hs
    simp only [updateField, hvc, if_true, hs]
    by_cases hbad : (!(vf v rule f).isValid && ((vf v rule f).error).isSome) = true
    · rw [if_pos hbad]
      have hbad' : (vf v rule f).isValid = false ∧ ((vf v rule f).error).isSome = true := by
        simpa only [Bool.and_eq_true, Bool.not_eq_true'] using hbad
      rw [if_pos hbad']
      exact objGet_objSet_self _ _ _
    · rw [if_neg hbad]
      have hbad' : ¬((vf v rule f).isValid = false ∧ ((vf v rule f).error).isSome = true) := by
        simpa only [Bool.and_eq_true, Bool.not_eq_true'] using hbad
      rw [if_neg hbad']
      exact errorsClear_self st f
  · intro g hg
    simp only [updateField]
    split
    · split
      · split
        · exact (objGet_objSet_ne _ _ _ _ hg).trans (errorsClear_ne st f g hg)
        · exact errorsClear_ne st f g hg
      · exact errorsClear_ne st f g hg
    · exact errorsClear_ne st f g hg

theorem spec_C6_witness :
    objGet (updateField defaultFormConfig nameSchema validateFieldUtil nameFormState
        "name" (JSValue.str "ab")).data "name" = some (JSValue.str "ab")
    ∧ objGet (updateField defaultFormConfig nameSchema validateFieldUtil nameFormState
        "name" (JSValue.str "ab")).errors "name" = none
    ∧ objGet (updateField defaultFormConfig nameSchema validateFieldUtil nameFormState
        "name" (JSValue.str "ab")).errors "other" = objGet nameFormState.errors "other" := by
  obtain ⟨h1, h2, h3, h4⟩ :=
    spec_C6 defaultFormConfig nameSchema validateFieldUtil nameFormState "name"
      (JSValue.str "ab")
  exact ⟨h1, h2 (Or.inl rfl), h4 "other" (by decide)⟩

lemma objGet_map_const_true {β : Type} (schema : List (String × β)) (f : String)
    (h : f ∈ schema.map Prod.fst) :
    objGet (schema.map (fun p => (p.1, true))) f = some true := by
  induction schema with
  | nil => simp at h
  | cons a t ih =>
      simp only [List.map_cons, List.mem_cons] at h
      by_cases ha : a.1 = f
      · simp [objGet, ha]
      · rcases h with h | h
        · exact absurd h.symm ha
        · simp [objGet, ha, ih h]

/-- C7: when validate-on-submit is enabled and whole-schema validation
fails, handleSubmit marks every schema field touched, stores the failing
fields in the error map (isValid becomes false), and does not invoke the
onSubmit callback; in the scenario with schema name required+minLength 2
and data name = "", an error entry for name appears and onSubmit is not
invoked. -/
theorem spec_C7 (cfg : FormConfig) (schema : List (String × Rule)) (st : FormState)
    (hsub : cfg.validateOnSubmit = true)
    (hfail : (validateFormUtil schema st.data).1 = false) :
    (handleSubmit cfg schema st).2 = false
    ∧ (handleSubmit cfg schema st).1.errors = (validateFormUtil schema st.data).2
    ∧ isValidState (handleSubmit cfg schema st).1 = false
    ∧ (∀ f, f ∈ schema.map Prod.fst →
        objGet (handleSubmit cfg schema st).1.touched f = some true)
    ∧ objGet (handleSubmit defaultFormConfig nameSchema nameFormState).1.errors "name"
        = some "name is invalid"
    ∧ (handleSubmit defaultFormConfig nameSchema nameFormState).2 = false
    ∧ isValidState (handleSubmit defaultFormConfig nameSchema nameFormState).1 = false := by
  have hred1 : (handleSubmit cfg schema st).2 = false := by
    simp [handleSubmit, hsub, hfail]
  have hred2 : (handleSubmit cfg schema st).1.errors = (validateFormUtil schema st.data).2 := by
    simp [handleSubmit, hsub, hfail]
  have hred3 : (handleSubmit cfg schema st).1.touched
      = schema.map (fun p => (p.1, true)) := by
    simp [handleSubmit, hsub, hfail]
  have hempty : (validateFormUtil schema st.data).1
      = ((validateFormUtil schema st.data).2).isEmpty := rfl
  refine ⟨hred1, hred2, ?_, ?_, ?_, ?_, ?_⟩
  · simp only [isValidState]
    rw [hred2, ← hempty]
    exact hfail
  · intro f hf
    rw [hred3]
    exact objGet_map_const_true schema f hf
  · decide
  · decide
  · decide

theorem spec_C7_witness :
    (handleSubmit defaultFormConfig nameSchema nameFormState).2 = false
    ∧ objGet (handleSubmit defaultFormConfig nameSchema nameFormState).1.touched "name"
        = some true
    ∧ objGet (handleSubmit defaultFormConfig nameSchema nameFormState).1.errors "name"
        = some "name is invalid"
    ∧ isValidState (handleSubmit defaultFormConfig nameSchema nameFormState).1 = false := by
  obtain ⟨h1, h2, h3, h4, h5, h6, h7⟩ :=
    spec_C7 defaultFormConfig nameSchema nameFormState rfl (by decide)
  exact ⟨h1, h4 "name" (by decide), h5, h7⟩

/-! ## Page adjustment after deletion -/

/-- The page adjustment of handleConfirmDelete (Brokers.tsx) and
confirmDelete (Posts.tsx): when the deleted row was the only one on the
current page and the page is past 1, navigate (through the clamping
handlePageChange) to the previous page; otherwise stay. -/
def afterDeletePage (oldTotalPages sliceLen currentPage : Nat) : Nat :=
  if sliceLen = 1 ∧ 1 < currentPage then
    min (max (currentPage - 1) 1) oldTotalPages
  else currentPage

/-- C10: after deleting a record shown on a nonempty current page, the
delete handlers move to the previous page exactly when the page held only
that record and is past 1, and the resulting page always stays within
[1, totalPages] of the shrunken list. -/
theorem spec_C10 {α : Type} (l : List α) (P p : Nat) (hP : 1 ≤ P) (hp : 1 ≤ p)
    (hne : paginateSpec l p P ≠ []) :
    1 ≤ afterDeletePage (totalPagesSpec l.length P) (paginateSpec l p P).length p
    ∧ afterDeletePage (totalPagesSpec l.length P) (paginateSpec l p P).length p
        ≤ totalPagesSpec (l.length - 1) P
    ∧ ((paginateSpec l p P).length = 1 ∧ 1 < p →
        afterDeletePage (totalPagesSpec l.length P) (paginateSpec l p P).length p = p - 1) := by
  obtain ⟨q, rfl⟩ : ∃ q, p = q + 1 := ⟨p - 1, by omega⟩
  have hlen : (paginateSpec l (q + 1) P).length = min P (l.length - q * P) := by
    rw [paginateSpec_length, Nat.add_sub_cancel]
  have hpos : 0 < (paginateSpec l (q + 1) P).length := List.length_pos.mpr hne
  rw [hlen] at hpos
  have hqn : q * P < l.length := by omega
  have hP0 : 0 < P := hP
  have hmul : (q + 1) * P = q * P + P := by ring
  have h_old : q + 1 ≤ (l.length + P - 1) / P :=
    (Nat.le_div_iff_mul_le hP0).mpr (by omega)
  have h_new1 : q ≤ (l.length - 1 + P - 1) / P :=
    (Nat.le_div_iff_mul_le hP0).mpr (by omega)
  rw [hlen]
  unfold afterDeletePage totalPagesSpec
  by_cases hc : min P (l.length - q * P) = 1 ∧ 1 < q + 1
  · rw [if_pos hc]
    refine ⟨by omega, by omega, fun _ => by omega⟩
  · rw [if_neg hc]
    refine ⟨by omega, ?_, fun hcc => absurd hcc hc⟩
    by_cases hq0 : q = 0
    · subst hq0
      omega
    · have hsl2 : 2 ≤ min P (l.length - q * P) := by omega
      have h_new2 : q + 1 ≤ (l.length - 1 + P - 1) / P :=
        (Nat.le_div_iff_mul_le hP0).mpr (by omega)
      omega

theorem spec_C10_witness :
    1 ≤ afterDeletePage (totalPagesSpec (List.range 21).length 10)
          (paginateSpec (List.range 21) 3 10).length 3
    ∧ afterDeletePage (totalPagesSpec (List.range 21).length 10)
          (paginateSpec (List.range 21) 3 10).length 3
        ≤ totalPagesSpec ((List.range 21).length - 1) 10
    ∧ ((paginateSpec (List.range 21) 3 10).length = 1 ∧ 1 < 3 →
        afterDeletePage (totalPagesSpec (List.range 21).length 10)
          (paginateSpec (List.range 21) 3 10).length 3 = 3 - 1) :=
  spec_C10 (List.range 21) 10 3 (by decide) (by decide) (by decide)
